import Mathlib

/- Shallow embedding of src/simplepbr/_ibl_funcs/cpu.py.

   Conventions: Python floats are modelled as exact rationals.  The library
   functions math.sqrt, math.sin, math.cos, math.atan2 and the constant
   math.pi have no exact rational counterpart, so every definition that
   needs them is parameterised by a MathOps record supplying them; no
   theorem below depends on any property of those operations.  Panda3D
   LVector3 values are modelled as triples of rationals.  Fallible Python
   code (unbound locals, division by zero) is modelled with Option. -/

set_option maxRecDepth 8000

/-- Model of Panda3D LVector3: a triple of rationals. -/
abbrev V3 : Type := ℚ × ℚ × ℚ

def vzero : V3 := (0, 0, 0)

def vadd (a b : V3) : V3 := (a.1 + b.1, a.2.1 + b.2.1, a.2.2 + b.2.2)

def vsub (a b : V3) : V3 := (a.1 - b.1, a.2.1 - b.2.1, a.2.2 - b.2.2)

def smul (c : ℚ) (v : V3) : V3 := (c * v.1, c * v.2.1, c * v.2.2)

def vdot (a b : V3) : ℚ := a.1 * b.1 + a.2.1 * b.2.1 + a.2.2 * b.2.2

/-- Panda3D LVector3.cross: the standard right-handed cross product. -/
def cross (a b : V3) : V3 :=
  (a.2.1 * b.2.2 - a.2.2 * b.2.1, a.2.2 * b.1 - a.1 * b.2.2, a.1 * b.2.1 - a.2.1 * b.1)

/-- Abstract interface for the transcendental operations of the math module
    (sqrt, cos, sin, atan2, pi), which have no exact rational embedding. -/
structure MathOps where
  sqrt : ℚ → ℚ
  cos : ℚ → ℚ
  sin : ℚ → ℚ
  atan2 : ℚ → ℚ → ℚ
  pi : ℚ

/-- A concrete MathOps instantiation used only to evaluate witnesses. -/
def testOps : MathOps := MathOps.mk (fun q => q) (fun q => q) (fun q => q) (fun a b => a + b) 3

/-- Panda3D LVector3.normalized / normalize: if the squared length is zero
    the vector is left as the zero vector, otherwise it is divided by
    sqrt of the squared length. -/
def pnormalize (ops : MathOps) (v : V3) : V3 :=
  if vdot v v = 0 then vzero else smul (1 / ops.sqrt (vdot v v)) v

/-- The x remap of calc_vector, line 30 of cpu.py:
    xcoord = float(xloc) / float((dim - 1) * 2 - 1). -/
def xcoordQ (dim xloc : ℤ) : ℚ := (xloc : ℚ) / (((dim - 1) * 2 - 1 : ℤ) : ℚ)

/-- The y remap of calc_vector, line 31 of cpu.py:
    ycoord = float(1 - yloc) / float((dim - 1) * 2). -/
def ycoordQ (dim yloc : ℤ) : ℚ := ((1 - yloc : ℤ) : ℚ) / (((dim - 1) * 2 : ℤ) : ℚ)

/-- calc_vector (cpu.py lines 28-46).  The Python body assigns vec only in
    the six elif branches, so a face index outside 0..5 reaches the return
    with vec unbound (UnboundLocalError); that failure is modelled by none. -/
def calc_vector (dim face_idx xloc yloc : ℤ) : Option V3 :=
  let xcoord := xcoordQ dim xloc
  let ycoord := ycoordQ dim yloc
  if face_idx = 0 then some (1, ycoord, -xcoord)
  else if face_idx = 1 then some (-1, ycoord, xcoord)
  else if face_idx = 2 then some (xcoord, 1, -ycoord)
  else if face_idx = 3 then some (xcoord, -1, ycoord)
  else if face_idx = 4 then some (xcoord, ycoord, 1)
  else if face_idx = 5 then some (-xcoord, ycoord, -1)
  else none

/-- Following the face table stated in the spec (one fixed case per cube
    face, fixed axis set to 1 or -1, the remapped coordinates filling the
    other two components), for comparison against calc_vector. -/
def cube_face_table (face : ℤ) (xc yc : ℚ) : V3 :=
  if face = 0 then (1, yc, -xc)
  else if face = 1 then (-1, yc, xc)
  else if face = 2 then (xc, 1, -yc)
  else if face = 3 then (xc, -1, yc)
  else if face = 4 then (xc, yc, 1)
  else (-xc, yc, -1)

/-- van_der_corput loop body (cpu.py lines 150-159).  The fuel argument
    bounds the number of iterations of the Python while loop; with
    base at least 2 (the only base the program ever uses) the loop runs at
    most idx times, so fuel = idx reproduces it exactly. -/
def vdcGo : ℕ → ℕ → ℕ → ℚ → ℚ → ℚ
  | 0, _, _, _, result => result
  | fuel + 1, base, idx, denom, result =>
    if idx = 0 then result
    else
      vdcGo fuel base (idx / base) (denom * (base : ℚ))
        (result + ((idx % base : ℕ) : ℚ) / (denom * (base : ℚ)))

/-- van_der_corput (cpu.py lines 150-159): radical-inverse digit reversal. -/
def van_der_corput (idx base : ℕ) : ℚ := vdcGo idx base idx 1 0

/-- hammersley (cpu.py lines 162-164); the call van_der_corput(idx) uses the
    default base 2.  The lru_cache decoration does not affect the value. -/
def hammersley (idx maxnum : ℕ) : ℚ × ℚ :=
  ((idx : ℚ) / (maxnum : ℚ), van_der_corput idx 2)

/-- Claim C1: for dim at least 2, face in 0..5 and texel coordinates x, y in
    [0, dim), calc_vector remaps x and y to coordinates lying in [-1, 1] and
    returns the face-specific 3-vector whose fixed axis is 1 or -1 and whose
    other two components are the remapped coordinates, as per the 6-case
    cube-face table. -/
theorem calc_vector_texel_remap_bounds (dim face x y : ℤ)
    (hdim : 2 ≤ dim) (hf0 : 0 ≤ face) (hf : face < 6)
    (hx0 : 0 ≤ x) (hx : x < dim) (hy0 : 0 ≤ y) (hy : y < dim) :
    (-1 ≤ xcoordQ dim x ∧ xcoordQ dim x ≤ 1) ∧
    (-1 ≤ ycoordQ dim y ∧ ycoordQ dim y ≤ 1) ∧
    calc_vector dim face x y = some (cube_face_table face (xcoordQ dim x) (ycoordQ dim y)) := by
  have hD1 : (0 : ℚ) < (((dim - 1) * 2 - 1 : ℤ) : ℚ) := by
    have : (1 : ℤ) ≤ (dim - 1) * 2 - 1 := by omega
    exact_mod_cast lt_of_lt_of_le zero_lt_one (by exact_mod_cast this)
  have hD2 : (0 : ℚ) < (((dim - 1) * 2 : ℤ) : ℚ) := by
    have : (1 : ℤ) ≤ (dim - 1) * 2 := by omega
    exact_mod_cast lt_of_lt_of_le zero_lt_one (by exact_mod_cast this)
  refine ⟨⟨?_, ?_⟩, ⟨?_, ?_⟩, ?_⟩
  · have hx0Q : (0 : ℚ) ≤ (x : ℚ) := by exact_mod_cast hx0
    have : (0 : ℚ) ≤ xcoordQ dim x := div_nonneg hx0Q (le_of_lt hD1)
    linarith
  · rw [xcoordQ, div_le_one hD1]
    have : x ≤ (dim - 1) * 2 - 1 := by omega
    exact_mod_cast this
  · rw [ycoordQ, le_div_iff₀ hD2]
    have h : -((dim - 1) * 2) ≤ 1 - y := by omega
    have h2 : ((-((dim - 1) * 2) : ℤ) : ℚ) ≤ ((1 - y : ℤ) : ℚ) := by exact_mod_cast h
    push_cast at h2 ⊢
    linarith
  · rw [ycoordQ, div_le_one hD2]
    have : 1 - y ≤ (dim - 1) * 2 := by omega
    exact_mod_cast this
  · interval_cases face <;> simp [calc_vector, cube_face_table]

/-- Concrete instantiation of calc_vector_texel_remap_bounds at
    dim = 2, face = 5, x = 1, y = 0. -/
theorem calc_vector_texel_remap_bounds_witness :
    (2 ≤ (2 : ℤ) ∧ 0 ≤ (5 : ℤ) ∧ (5 : ℤ) < 6 ∧ 0 ≤ (1 : ℤ) ∧ (1 : ℤ) < 2 ∧
      0 ≤ (0 : ℤ) ∧ (0 : ℤ) < 2) ∧
    ((-1 ≤ xcoordQ 2 1 ∧ xcoordQ 2 1 ≤ 1) ∧
     (-1 ≤ ycoordQ 2 0 ∧ ycoordQ 2 0 ≤ 1) ∧
     calc_vector 2 5 1 0 = some (cube_face_table 5 (xcoordQ 2 1) (ycoordQ 2 0))) :=
  ⟨by decide,
   calc_vector_texel_remap_bounds 2 5 1 0 (by decide) (by decide) (by decide)
     (by decide) (by decide) (by decide) (by decide)⟩

/-- Claim C10: for a face index outside 0..5 no branch of calc_vector
    assigns the result, and the function fails (modelled as none) for every
    dim, x, y. -/
theorem calc_vector_bad_face_none (dim face x y : ℤ)
    (h : face < 0 ∨ 6 ≤ face) :
    calc_vector dim face x y = none := by
  have h0 : face ≠ 0 := by omega
  have h1 : face ≠ 1 := by omega
  have h2 : face ≠ 2 := by omega
  have h3 : face ≠ 3 := by omega
  have h4 : face ≠ 4 := by omega
  have h5 : face ≠ 5 := by omega
  simp [calc_vector, h0, h1, h2, h3, h4, h5]

/-- Concrete instantiation of calc_vector_bad_face_none at face = 6. -/
theorem calc_vector_bad_face_none_witness :
    ((6 : ℤ) < 0 ∨ 6 ≤ (6 : ℤ)) ∧ calc_vector 2 6 0 0 = none :=
  ⟨Or.inr (by decide), calc_vector_bad_face_none 2 6 0 0 (Or.inr (by decide))⟩

/-- Claim C4 counterexample: the spec fixes van_der_corput(5, 2) = 0.8125,
    but the code (and the radical-inverse definition, 5 = 101 in base 2
    reversed to .101) gives 0.625, so hammersley(5, 1024) is not the
    claimed pair. -/
theorem hammersley_five_not_claimed :
    hammersley 5 1024 ≠ ((5 : ℚ) / 1024, 0.8125) := by
  intro h
  have h2 : van_der_corput 5 2 = 0.8125 := congrArg Prod.snd h
  norm_num [van_der_corput, vdcGo] at h2

/-- Claim C4 (amended): hammersley(5, 1024) equals
    (5/1024, van_der_corput(5, 2)) where van_der_corput(5, 2) = 0.625
    exactly. -/
theorem hammersley_five_value :
    hammersley 5 1024 = ((5 : ℚ) / 1024, van_der_corput 5 2) ∧
    van_der_corput 5 2 = 0.625 := by
  constructor
  · rfl
  · norm_num [van_der_corput, vdcGo]

/-- Claim C9: hammersley(i, n) equals the pair (i/n, van_der_corput(i, 2))
    for every i and every n greater than 0, and hammersley(0, n) = (0, 0). -/
theorem hammersley_pair_and_zero (i n : ℕ) (hn : 0 < n) :
    hammersley i n = ((i : ℚ) / (n : ℚ), van_der_corput i 2) ∧
    hammersley 0 n = (0, 0) := by
  refine ⟨rfl, ?_⟩
  simp [hammersley, van_der_corput, vdcGo]

/-- Concrete instantiation of hammersley_pair_and_zero at i = 5, n = 4. -/
theorem hammersley_pair_and_zero_witness :
    0 < 4 ∧
    (hammersley 5 4 = ((5 : ℚ) / (4 : ℚ), van_der_corput 5 2) ∧
     hammersley 0 4 = (0, 0)) :=
  ⟨by decide, hammersley_pair_and_zero 5 4 (by decide)⟩

/-- Models line 181 of cpu.py:
    upvec = LVector3(0, 0, 1) if abs(normal.z < 0.999) else LVector3(1, 0, 0).
    In Python abs is applied to the boolean (normal.z < 0.999), which is 1
    for True and 0 for False, so the branch effectively tests
    normal.z < 0.999 and not the magnitude of normal.z. -/
def ggx_upvec (nz : ℚ) : V3 :=
  if (if nz < 0.999 then (1 : ℕ) else 0) ≠ 0 then (0, 0, 1) else (1, 0, 0)

/-- Following the words of the spec, for comparison: the up reference is
    world +Z unless the normal is nearly parallel to the Z axis (magnitude
    of normal.z at least 0.999), in which case world +X. -/
def ggx_upvec_intent (nz : ℚ) : V3 :=
  if |nz| < 0.999 then (0, 0, 1) else (1, 0, 0)

/-- importance_sample_ggx (cpu.py lines 167-186). -/
def importance_sample_ggx (ops : MathOps) (xi : ℚ × ℚ) (normal : V3) (roughness : ℚ) : V3 :=
  let alpha := roughness * roughness
  let phi := 2 * ops.pi * xi.1
  let costheta := ops.sqrt ((1 - xi.2) / (1 + (alpha * alpha - 1) * xi.2))
  let sintheta := ops.sqrt (1 - costheta * costheta)
  let hvec : V3 := (ops.cos phi * sintheta, ops.sin phi * sintheta, costheta)
  let upvec := ggx_upvec normal.2.2
  let tangent := pnormalize ops (cross upvec normal)
  let bitangent := cross normal tangent
  pnormalize ops (vadd (vadd (smul hvec.1 tangent) (smul hvec.2.1 bitangent)) (smul hvec.2.2 normal))

/-- geometry_schlick_ggx (cpu.py lines 188-192). -/
def geometry_schlick_ggx (ndotv roughness : ℚ) : ℚ :=
  let alpha := roughness
  let kibl := alpha * alpha / 2
  ndotv / (ndotv * (1 - kibl) + kibl)

/-- geometry_smith (cpu.py lines 195-199). -/
def geometry_smith (normal view light : V3) (roughness : ℚ) : ℚ :=
  geometry_schlick_ggx (max (vdot normal view) 0) roughness *
  geometry_schlick_ggx (max (vdot normal light) 0) roughness

/-- The view vector of integrate_brdf (cpu.py lines 204-208), built from the
    clamped ndotv. -/
def brdf_view (ops : MathOps) (ndotv : ℚ) : V3 :=
  (ops.sqrt (1 - ndotv * ndotv), 0, ndotv)

/-- One iteration of the loop of integrate_brdf (cpu.py lines 212-228),
    factored out of the fold.  view and ndotv are the loop-invariant values
    computed before the loop from the clamped ndotv. -/
def integrate_brdf_body (ops : MathOps) (view : V3) (ndotv roughness : ℚ)
    (num_samples : ℕ) (retval : ℚ × ℚ) (idx : ℕ) : ℚ × ℚ :=
  let xi := hammersley idx num_samples
  let hvec := importance_sample_ggx ops xi (0, 0, 1) roughness
  let light := pnormalize ops (vsub (smul (2 * vdot view hvec) hvec) view)
  let ndotl := max light.2.2 0
  if 0 < ndotl then
    let ndoth := max hvec.2.2 0
    let vdoth := max (vdot view hvec) 0
    let geom := geometry_smith (0, 0, 1) view light roughness
    let geom_vis := geom * vdoth / (ndoth * ndotv)
    let fresnel := (1 - vdoth) ^ 5
    (retval.1 + (1 - fresnel) * geom_vis, retval.2 + fresnel * geom_vis)
  else retval

/-- integrate_brdf (cpu.py lines 202-232). -/
def integrate_brdf (ops : MathOps) (ndotv roughness : ℚ) (num_samples : ℕ) : ℚ × ℚ :=
  let ndotv2 := max ndotv 0.0001
  let view := brdf_view ops ndotv2
  let retval := (List.range num_samples).foldl
    (integrate_brdf_body ops view ndotv2 roughness num_samples) (0, 0)
  (retval.1 / (num_samples : ℚ), retval.2 / (num_samples : ℚ))

/-- The half-vector drawn for sample idx of integrate_brdf. -/
def brdf_sample_hvec (ops : MathOps) (roughness : ℚ) (n idx : ℕ) : V3 :=
  importance_sample_ggx ops (hammersley idx n) (0, 0, 1) roughness

/-- The normalized reflected light direction for sample idx of
    integrate_brdf (ndotv is the clamped value). -/
def brdf_sample_light (ops : MathOps) (ndotv roughness : ℚ) (n idx : ℕ) : V3 :=
  pnormalize ops
    (vsub
      (smul (2 * vdot (brdf_view ops ndotv) (brdf_sample_hvec ops roughness n idx))
        (brdf_sample_hvec ops roughness n idx))
      (brdf_view ops ndotv))

/-- The clamped N dot L value for sample idx of integrate_brdf; the normal
    is (0, 0, 1), so the source reads it off as light.z. -/
def brdf_sample_ndotl (ops : MathOps) (ndotv roughness : ℚ) (n idx : ℕ) : ℚ :=
  max (brdf_sample_light ops ndotv roughness n idx).2.2 0

/-- The contribution of sample idx to the two accumulators of
    integrate_brdf: the loop body applied to the zero accumulator. -/
def brdf_summand (ops : MathOps) (ndotv roughness : ℚ) (n idx : ℕ) : ℚ × ℚ :=
  integrate_brdf_body ops (brdf_view ops ndotv) ndotv roughness n (0, 0) idx

def qsum2 : List (ℚ × ℚ) → ℚ × ℚ
  | [] => (0, 0)
  | a :: l => (a.1 + (qsum2 l).1, a.2 + (qsum2 l).2)

/-- Closed form of integrate_brdf: sum of the per-sample contributions of
    all drawn samples, divided by the total number of samples. -/
def integrate_brdf_sum_form (ops : MathOps) (ndotv roughness : ℚ) (n : ℕ) : ℚ × ℚ :=
  let t := qsum2 ((List.range n).map (brdf_summand ops (max ndotv 0.0001) roughness n))
  (t.1 / (n : ℚ), t.2 / (n : ℚ))

theorem integrate_brdf_body_add (ops : MathOps) (view : V3) (ndotv roughness : ℚ)
    (n : ℕ) (s : ℚ × ℚ) (i : ℕ) :
    integrate_brdf_body ops view ndotv roughness n s i =
      (s.1 + (integrate_brdf_body ops view ndotv roughness n (0, 0) i).1,
       s.2 + (integrate_brdf_body ops view ndotv roughness n (0, 0) i).2) := by
  simp only [integrate_brdf_body]
  split <;> simp

theorem foldl_qsum2 (f : ℚ × ℚ → ℕ → ℚ × ℚ) (g : ℕ → ℚ × ℚ)
    (hf : ∀ s i, f s i = (s.1 + (g i).1, s.2 + (g i).2)) :
    ∀ (l : List ℕ) (s : ℚ × ℚ),
      l.foldl f s = (s.1 + (qsum2 (l.map g)).1, s.2 + (qsum2 (l.map g)).2) := by
  intro l
  induction l with
  | nil => intro s; simp [qsum2]
  | cons a l ih =>
    intro s
    rw [List.foldl_cons, ih (f s a), hf s a]
    simp only [List.map_cons, qsum2, Prod.ext_iff]
    constructor <;> ring

/-- Claim C6: for every ndotv, roughness and positive sample count,
    integrate_brdf equals its closed form: the ndotv floor clamp to 0.0001
    is applied (the result is invariant under pre-clamping), the result is
    the per-sample contribution sum divided by the total number of drawn
    samples num_samples (never by the accepted count), and any sample whose
    clamped N dot L is not positive contributes (0, 0). -/
theorem integrate_brdf_structure (ops : MathOps) (ndotv roughness : ℚ) (n : ℕ)
    (hn : 0 < n) :
    integrate_brdf ops ndotv roughness n = integrate_brdf_sum_form ops ndotv roughness n ∧
    integrate_brdf ops ndotv roughness n = integrate_brdf ops (max ndotv 0.0001) roughness n ∧
    ∀ i, brdf_sample_ndotl ops (max ndotv 0.0001) roughness n i ≤ 0 →
      brdf_summand ops (max ndotv 0.0001) roughness n i = (0, 0) := by
  refine ⟨?_, ?_, ?_⟩
  · simp only [integrate_brdf, integrate_brdf_sum_form]
    rw [foldl_qsum2 (integrate_brdf_body ops (brdf_view ops (max ndotv 0.0001))
        (max ndotv 0.0001) roughness n)
        (brdf_summand ops (max ndotv 0.0001) roughness n)
        (fun s i => by rw [integrate_brdf_body_add]; rfl)]
    simp
  · simp only [integrate_brdf, max_eq_left (le_max_right ndotv 0.0001)]
  · intro i h
    simp only [brdf_sample_ndotl, brdf_sample_light, brdf_sample_hvec] at h
    simp only [brdf_summand, integrate_brdf_body]
    rw [if_neg (not_lt.mpr h)]

/-- Concrete instantiation of integrate_brdf_structure at
    ndotv = 0, roughness = 0, num_samples = 1. -/
theorem integrate_brdf_structure_witness :
    0 < 1 ∧
    (integrate_brdf testOps 0 0 1 = integrate_brdf_sum_form testOps 0 0 1 ∧
     integrate_brdf testOps 0 0 1 = integrate_brdf testOps (max 0 0.0001) 0 1 ∧
     ∀ i, brdf_sample_ndotl testOps (max 0 0.0001) 0 1 i ≤ 0 →
       brdf_summand testOps (max 0 0.0001) 0 1 i = (0, 0)) :=
  ⟨by decide, integrate_brdf_structure testOps 0 0 1 (by decide)⟩

theorem flatMap_grid_length {α : Type} (f : ℕ → ℕ → α) (b : ℕ) :
    ∀ ys : List ℕ,
      (ys.flatMap (fun y => (List.range b).map (f y))).length = ys.length * b
  | [] => by simp
  | y :: ys => by
    rw [List.flatMap_cons, List.length_append, flatMap_grid_length f b ys]
    simp [Nat.succ_mul, Nat.add_comm]

theorem flatMap_grid_get {α : Type} (f : ℕ → ℕ → α) (b : ℕ) :
    ∀ (ys : List ℕ) (k x y : ℕ), x < b → ys[k]? = some y →
      (ys.flatMap (fun y2 => (List.range b).map (f y2)))[k * b + x]? = some (f y x)
  | [], k, x, y, hx, hget => by simp at hget
  | y0 :: ys, 0, x, y, hx, hget => by
    simp only [List.getElem?_cons_zero, Option.some.injEq] at hget
    subst hget
    rw [List.flatMap_cons]
    rw [List.getElem?_append_left (by simpa using hx)]
    simp [List.getElem?_range hx]
  | y0 :: ys, k + 1, x, y, hx, hget => by
    simp only [List.getElem?_cons_succ] at hget
    rw [List.flatMap_cons]
    have hlen : ((List.range b).map (f y0)).length = b := by simp
    rw [List.getElem?_append_right (by rw [hlen, Nat.succ_mul]; omega :
      ((List.range b).map (f y0)).length ≤ (k + 1) * b + x)]
    rw [hlen]
    have harith : (k + 1) * b + x - b = k * b + x := by rw [Nat.succ_mul]; omega
    rw [harith]
    exact flatMap_grid_get f b ys k x y hx hget

/-- gen_brdf_lut (cpu.py lines 235-249).  The RAM image of the lutsize by
    lutsize two-channel texture is modelled as the row-major list of its
    pixel pairs: the source writes the pixel of texel (x, y) at byte offset
    (y * xsize + x) * pixelsize, i.e. linear index y * lutsize + x, packing
    result[1] then result[0]. -/
def gen_brdf_lut (ops : MathOps) (lutsize num_samples : ℕ) : List (ℚ × ℚ) :=
  (List.range lutsize).flatMap (fun (ycoord : ℕ) =>
    (List.range lutsize).map (fun (xcoord : ℕ) =>
      let result := integrate_brdf ops ((xcoord : ℚ) / (lutsize : ℚ))
        ((ycoord : ℚ) / (lutsize : ℚ)) num_samples
      (result.2, result.1)))

/-- Claim C7: for every positive lutsize and every texel (x, y), gen_brdf_lut
    stores at linear index y * lutsize + x the value of
    integrate_brdf(x / lutsize, y / lutsize, num_samples) with the two
    channels swapped relative to the (scale, bias) return order, i.e.
    (bias, scale), and the lut has exactly lutsize * lutsize entries. -/
theorem gen_brdf_lut_bias_scale_order (ops : MathOps) (lutsize num_samples x y : ℕ)
    (hl : 0 < lutsize) (hx : x < lutsize) (hy : y < lutsize) :
    (gen_brdf_lut ops lutsize num_samples)[y * lutsize + x]? =
      some (Prod.swap (integrate_brdf ops ((x : ℚ) / (lutsize : ℚ))
        ((y : ℚ) / (lutsize : ℚ)) num_samples)) ∧
    (gen_brdf_lut ops lutsize num_samples).length = lutsize * lutsize := by
  constructor
  · unfold gen_brdf_lut
    exact flatMap_grid_get
      (fun ycoord xcoord =>
        let result := integrate_brdf ops ((xcoord : ℚ) / (lutsize : ℚ))
          ((ycoord : ℚ) / (lutsize : ℚ)) num_samples
        (result.2, result.1))
      lutsize (List.range lutsize) y x y hx (List.getElem?_range hy)
  · have h := flatMap_grid_length
      (fun ycoord xcoord =>
        let result := integrate_brdf ops ((xcoord : ℚ) / (lutsize : ℚ))
          ((ycoord : ℚ) / (lutsize : ℚ)) num_samples
        (result.2, result.1))
      lutsize (List.range lutsize)
    rw [List.length_range] at h
    unfold gen_brdf_lut
    exact h

/-- Concrete instantiation of gen_brdf_lut_bias_scale_order at
    lutsize = 1, num_samples = 0, texel (0, 0). -/
theorem gen_brdf_lut_bias_scale_order_witness :
    (0 < 1 ∧ 0 < 1 ∧ 0 < 1) ∧
    ((gen_brdf_lut testOps 1 0)[0 * 1 + 0]? =
      some (Prod.swap (integrate_brdf testOps (((0 : ℕ) : ℚ) / ((1 : ℕ) : ℚ))
        (((0 : ℕ) : ℚ) / ((1 : ℕ) : ℚ)) 0)) ∧
     (gen_brdf_lut testOps 1 0).length = 1 * 1) :=
  ⟨⟨by decide, by decide, by decide⟩,
   gen_brdf_lut_bias_scale_order testOps 1 0 0 0 (by decide) (by decide) (by decide)⟩

/-- Claim C3 (code divergence): the source line
    upvec = LVector3(0,0,1) if abs(normal.z < 0.999) else LVector3(1,0,0)
    applies abs to a boolean, so the up reference is chosen by
    normal.z < 0.999 rather than by the magnitude of normal.z: at a normal
    pointing along -Z (normal.z = -1) the code picks world +Z (making the
    cross product with the normal degenerate), while the behaviour the spec
    states picks world +X. -/
theorem ggx_upvec_negz_divergence :
    ggx_upvec (-1) = (0, 0, 1) ∧ ggx_upvec_intent (-1) = (1, 0, 0) := by
  constructor
  · norm_num [ggx_upvec]
  · norm_num [ggx_upvec_intent]

/-- calc_sphere_quadrant_area (cpu.py lines 49-50). -/
def calc_sphere_quadrant_area (ops : MathOps) (x y : ℚ) : ℚ :=
  ops.atan2 (x * y) (ops.sqrt (x * x + y * y + 1))

/-- calc_solid_angle (cpu.py lines 53-64). -/
def calc_solid_angle (ops : MathOps) (invdim : ℚ) (x y : ℕ) : ℚ :=
  let s := (((x : ℚ) + 0.5) * 2 * invdim) - 1
  let t := (((y : ℚ) + 0.5) * 2 * invdim) - 1
  let x0 := s - invdim
  let y0 := t - invdim
  let x1 := s + invdim
  let y1 := t + invdim
  calc_sphere_quadrant_area ops x0 y0 - calc_sphere_quadrant_area ops x0 y1 -
    calc_sphere_quadrant_area ops x1 y0 + calc_sphere_quadrant_area ops x1 y1

/-- get_sh_basis_from_vector (cpu.py lines 67-79): the 9-tuple of basis
    values, modelled as its indexing function (indices above 8 never occur
    in the program and return 0). -/
def get_sh_basis (v : V3) (i : ℕ) : ℚ :=
  match i with
  | 0 => 0.282095
  | 1 => 0.488603 * v.1
  | 2 => 0.488603 * v.2.2
  | 3 => 0.488603 * v.2.1
  | 4 => 1.092548 * v.1 * v.2.2
  | 5 => 1.092548 * v.2.1 * v.2.2
  | 6 => 1.092548 * v.2.1 * v.1
  | 7 => 0.946176 * v.2.2 * v.2.2 - 0.315392
  | 8 => 0.546274 * (v.1 * v.1 - v.2.1 * v.2.1)
  | _ => 0

/-- The interface of the input texture used by get_sh_coeffs_from_cube_map:
    the three sizes, the might_have_ram_image capability flag, and peek,
    returning an optional per-texel fetch function taking (x, y, face). -/
structure PTexture where
  x_size : ℕ
  y_size : ℕ
  z_size : ℕ
  might_have_ram_image : Bool
  peek : Option (ℕ → ℕ → ℕ → V3)

/-- The samples generator of cpu.py lines 111-116: every (face, x, y). -/
def shSamples (tex : PTexture) : List (ℕ × ℕ × ℕ) :=
  (List.range tex.z_size).flatMap (fun (face : ℕ) =>
    (List.range tex.x_size).flatMap (fun (x : ℕ) =>
      (List.range tex.y_size).map (fun (y : ℕ) => (face, x, y))))

/-- One iteration of the accumulation loop (cpu.py lines 118-130): fetch the
    texel color, weight it by the solid angle, and add color times basis
    value into every coefficient.  The Python list of 9 accumulators is
    modelled by its indexing function; for faces 0..5 calc_vector always
    returns a vector, so the getD default is never taken. -/
def sh_sample_body (ops : MathOps) (dim : ℕ) (peeker : ℕ → ℕ → ℕ → V3)
    (sh : ℕ → V3) (s : ℕ × ℕ × ℕ) : ℕ → V3 :=
  let color := peeker s.2.1 s.2.2 s.1
  let color2 := smul (calc_solid_angle ops (1 / (dim : ℚ)) s.2.1 s.2.2) color
  let vec := (calc_vector (dim : ℤ) (s.1 : ℤ) (s.2.1 : ℤ) (s.2.2 : ℤ)).getD vzero
  fun i => vadd (sh i) (smul (get_sh_basis vec i) color2)

/-- The cosine-lobe constant a0 of cpu.py line 135 (the rounded decimal
    approximation of pi used by the source). -/
def shA0 : ℚ := 3.141593

/-- The cosine-lobe constant a1 of cpu.py line 136 (2/3 pi, rounded). -/
def shA1 : ℚ := 2.094395

/-- The cosine-lobe constant a2 of cpu.py line 137 (1/4 pi, rounded). -/
def shA2 : ℚ := 0.785398

/-- One in-place scaling mutation shcoeffs[i] *= c (cpu.py lines 138-145). -/
def shUpd (sh : ℕ → V3) (i : ℕ) (c : ℚ) : ℕ → V3 :=
  fun j => if j = i then smul c (sh j) else sh j

/-- get_sh_coeffs_from_cube_map (cpu.py lines 81-147).  The four RuntimeError
    raises are modelled as none; the returned list of 9 coefficient vectors
    is read back off the accumulator function at indices 0..8. -/
def get_sh_coeffs_from_cube_map (ops : MathOps) (tex : PTexture) : Option (List V3) :=
  if tex.z_size ≠ 6 then none
  else if tex.x_size ≠ tex.y_size then none
  else if tex.might_have_ram_image = false then none
  else
    match tex.peek with
    | none => none
    | some peeker =>
      let dim := tex.x_size
      let sh0 := (shSamples tex).foldl (sh_sample_body ops dim peeker) (fun _ => vzero)
      let sh1 := shUpd sh0 0 shA0
      let sh2 := shUpd sh1 1 shA1
      let sh3 := shUpd sh2 2 shA1
      let sh4 := shUpd sh3 3 shA1
      let sh5 := shUpd sh4 4 shA2
      let sh6 := shUpd sh5 5 shA2
      let sh7 := shUpd sh6 6 shA2
      let sh8 := shUpd sh7 7 shA2
      some ((List.range 9).map sh8)

def sumV3 : List V3 → V3
  | [] => vzero
  | a :: l => vadd a (sumV3 l)

/-- The contribution of one sample (face, x, y) to coefficient i. -/
def sh_contrib (ops : MathOps) (dim : ℕ) (peeker : ℕ → ℕ → ℕ → V3)
    (s : ℕ × ℕ × ℕ) (i : ℕ) : V3 :=
  let color := peeker s.2.1 s.2.2 s.1
  let color2 := smul (calc_solid_angle ops (1 / (dim : ℚ)) s.2.1 s.2.2) color
  let vec := (calc_vector (dim : ℤ) (s.1 : ℤ) (s.2.1 : ℤ) (s.2.2 : ℤ)).getD vzero
  smul (get_sh_basis vec i) color2

/-- Coefficient i accumulated over all texels of all faces. -/
def sh_accum (ops : MathOps) (tex : PTexture) (peeker : ℕ → ℕ → ℕ → V3) (i : ℕ) : V3 :=
  sumV3 ((shSamples tex).map (fun s => sh_contrib ops tex.x_size peeker s i))

/-- The 9 accumulated coefficients with the cosine-lobe scaling applied:
    index 0 times a0, indices 1-3 times a1, indices 4-7 times a2, and
    index 8 unscaled. -/
def sh_scaled_list (ops : MathOps) (tex : PTexture) (peeker : ℕ → ℕ → ℕ → V3) : List V3 :=
  [smul shA0 (sh_accum ops tex peeker 0),
   smul shA1 (sh_accum ops tex peeker 1),
   smul shA1 (sh_accum ops tex peeker 2),
   smul shA1 (sh_accum ops tex peeker 3),
   smul shA2 (sh_accum ops tex peeker 4),
   smul shA2 (sh_accum ops tex peeker 5),
   smul shA2 (sh_accum ops tex peeker 6),
   smul shA2 (sh_accum ops tex peeker 7),
   sh_accum ops tex peeker 8]

theorem vadd_vzero (v : V3) : vadd v vzero = v := by
  obtain ⟨a, b, c⟩ := v
  simp [vadd, vzero]

theorem vzero_vadd (v : V3) : vadd vzero v = v := by
  obtain ⟨a, b, c⟩ := v
  simp [vadd, vzero]

theorem vadd_assocV (a b c : V3) : vadd (vadd a b) c = vadd a (vadd b c) := by
  simp [vadd, add_assoc]

theorem sh_sample_body_eq (ops : MathOps) (dim : ℕ) (peeker : ℕ → ℕ → ℕ → V3)
    (sh : ℕ → V3) (s : ℕ × ℕ × ℕ) :
    sh_sample_body ops dim peeker sh s =
      fun i => vadd (sh i) (sh_contrib ops dim peeker s i) := by
  funext i
  simp only [sh_sample_body, sh_contrib]

theorem foldl_pointwise (F : (ℕ → V3) → (ℕ × ℕ × ℕ) → (ℕ → V3))
    (g : (ℕ × ℕ × ℕ) → ℕ → V3)
    (hF : ∀ sh s, F sh s = fun i => vadd (sh i) (g s i)) :
    ∀ (l : List (ℕ × ℕ × ℕ)) (sh : ℕ → V3),
      l.foldl F sh = fun i => vadd (sh i) (sumV3 (l.map (fun s => g s i))) := by
  intro l
  induction l with
  | nil =>
    intro sh
    funext i
    simp [sumV3, vadd_vzero]
  | cons a l ih =>
    intro sh
    rw [List.foldl_cons, ih (F sh a), hF sh a]
    funext i
    simp only [List.map_cons, sumV3]
    rw [vadd_assocV]

/-- Claim C5: under the preconditions, get_sh_coeffs_from_cube_map returns
    exactly the 9 accumulated RGB coefficients in basis order with the
    cosine-lobe convolution scalars applied as: coefficient 0 times a0
    (the pi constant of the source), coefficients 1-3 times a1 (2/3 pi),
    coefficients 4-7 times a2 (1/4 pi), coefficient 8 unscaled. -/
theorem sh_coeffs_cosine_lobe_scaling (ops : MathOps) (tex : PTexture)
    (peeker : ℕ → ℕ → ℕ → V3)
    (hz : tex.z_size = 6) (hxy : tex.x_size = tex.y_size)
    (hram : tex.might_have_ram_image = true) (hpeek : tex.peek = some peeker) :
    get_sh_coeffs_from_cube_map ops tex = some (sh_scaled_list ops tex peeker) ∧
    (sh_scaled_list ops tex peeker).length = 9 := by
  constructor
  · rw [get_sh_coeffs_from_cube_map]
    rw [if_neg (by simp [hz])]
    rw [if_neg (by simp [hxy])]
    rw [if_neg (by simp [hram])]
    rw [hpeek]
    dsimp only
    rw [foldl_pointwise (sh_sample_body ops tex.x_size peeker)
        (sh_contrib ops tex.x_size peeker)
        (sh_sample_body_eq ops tex.x_size peeker)]
    rw [show List.range 9 = [0, 1, 2, 3, 4, 5, 6, 7, 8] from rfl]
    simp [shUpd, sh_scaled_list, sh_accum, vzero_vadd]
  · rfl

/-- Concrete instantiation of sh_coeffs_cosine_lobe_scaling on a 1 by 1 by 6
    texture with a constant fetch function. -/
theorem sh_coeffs_cosine_lobe_scaling_witness :
    ((PTexture.mk 1 1 6 true (some (fun _ _ _ => vzero))).z_size = 6 ∧
     (PTexture.mk 1 1 6 true (some (fun _ _ _ => vzero))).x_size =
       (PTexture.mk 1 1 6 true (some (fun _ _ _ => vzero))).y_size ∧
     (PTexture.mk 1 1 6 true (some (fun _ _ _ => vzero))).might_have_ram_image = true ∧
     (PTexture.mk 1 1 6 true (some (fun _ _ _ => vzero))).peek =
       some (fun _ _ _ => vzero)) ∧
    (get_sh_coeffs_from_cube_map testOps (PTexture.mk 1 1 6 true (some (fun _ _ _ => vzero))) =
      some (sh_scaled_list testOps (PTexture.mk 1 1 6 true (some (fun _ _ _ => vzero)))
        (fun _ _ _ => vzero)) ∧
     (sh_scaled_list testOps (PTexture.mk 1 1 6 true (some (fun _ _ _ => vzero)))
       (fun _ _ _ => vzero)).length = 9) :=
  ⟨⟨rfl, rfl, rfl, rfl⟩,
   sh_coeffs_cosine_lobe_scaling testOps (PTexture.mk 1 1 6 true (some (fun _ _ _ => vzero)))
     (fun _ _ _ => vzero) rfl rfl rfl rfl⟩

/-- Claim C8: get_sh_coeffs_from_cube_map fails (models the RuntimeError
    raises) exactly when the texture does not have 6 faces, is not square,
    or its image cannot be read back (no ram image capability or no
    peeker); and whether it fails never depends on the texel fetch
    function, i.e. the checks happen before any texel is read. -/
theorem sh_coeffs_invalid_input_iff (ops : MathOps) (tex : PTexture) :
    (get_sh_coeffs_from_cube_map ops tex = none ↔
      tex.z_size ≠ 6 ∨ tex.x_size ≠ tex.y_size ∨
      tex.might_have_ram_image = false ∨ tex.peek = none) ∧
    ∀ f g : ℕ → ℕ → ℕ → V3,
      (get_sh_coeffs_from_cube_map ops
        (PTexture.mk tex.x_size tex.y_size tex.z_size tex.might_have_ram_image
          (some f))).isNone =
      (get_sh_coeffs_from_cube_map ops
        (PTexture.mk tex.x_size tex.y_size tex.z_size tex.might_have_ram_image
          (some g))).isNone := by
  constructor
  · unfold get_sh_coeffs_from_cube_map
    split_ifs with h1 h2 h3
    · simp [h1]
    · simp [h2]
    · simp [h3]
    · cases hp : tex.peek with
      | none => simp [hp, h1, h2, h3]
      | some peeker => simp [hp, h1, h2, h3]
  · intro f g
    unfold get_sh_coeffs_from_cube_map
    split_ifs <;> simp

/-- filter_sample (cpu.py lines 252-271).  The envmap.lookup call samples
    the environment by direction; the source passes pos for every sample
    (not the reflected light direction).  The final statement
    retval /= totweight is unguarded in the source; when totweight is zero
    it is a division by zero (an exception or non-finite values), modelled
    here as none. -/
def filter_sample (ops : MathOps) (pos : V3) (envmap : V3 → V3) (roughness : ℚ)
    (num_samples : ℕ) : Option V3 :=
  let view := pnormalize ops pos
  let normal := view
  let st := (List.range num_samples).foldl (fun (st : V3 × ℚ) idx =>
    let xi := hammersley idx num_samples
    let hvec := importance_sample_ggx ops xi normal roughness
    let light := pnormalize ops (vsub (smul (2 * vdot view hvec) hvec) view)
    let ndotl := max (vdot normal light) 0
    if 0 < ndotl then
      (vadd st.1 (smul ndotl (envmap pos)), st.2 + ndotl)
    else st) (vzero, 0)
  if st.2 = 0 then none else some (smul (1 / st.2) st.1)

/-- Claim C2 (code divergence): in a call in which every importance sample
    is rejected, so that the total accumulated weight is zero — concretely
    the degenerate call with num_samples = 0 — filter_sample does not
    return a zero color: the source divides the accumulator by the zero
    total weight without any guard, which fails (modelled as none). -/
theorem filter_sample_zero_weight_fails :
    filter_sample testOps (1, 0, 0) (fun _ => (1, 1, 1)) (1 / 2) 0 = none := by
  rfl
